import Mathlib

/-!
Verification of the `ExpenseManager` core (and the CSV import/export
collaborator boundary) of the expense-tracker program `expense_tracker.py`.

The Python code is shallowly embedded: each `ExpenseManager` method becomes a
Lean function that takes the in-memory store (`List Expense`, mirroring
`self.expenses`) and returns the store the method leaves behind together with
the method's return value.

Python floats are modelled bit-faithfully as IEEE-754 binary64 values `F64`:
NaN, signed infinities, and finite values stored as a sign and a magnitude
that is an integer multiple of 2^(-1074) (the scale of the smallest
subnormal), so every finite double is represented exactly and all arithmetic
is integer arithmetic the kernel can evaluate.  Addition and division round
the exact result to nearest, ties to even, overflowing to infinity and
underflowing to (signed) zero, as the hardware does; comparisons make every
comparison with NaN false, as Python's do.  `pyFloat` models `float(str)`:
whitespace stripping, an optional sign, `nan`/`inf`/`infinity` in any case,
decimal literals with optional fraction and exponent, and underscores between
digits; it returns `none` where `float` raises `ValueError`.  (Non-ASCII
digit characters and the textual rendering of floats are not modelled; no
claim depends on them.)

Python strings are Lean `String`s, with the string operations the code uses
(strip, lower, code-point comparison) implemented by structural recursion on
the underlying character list so that they compute.  File-system effects are
explicit: the persisted file is a `FileState`, CSV input is a header plus
rows of cell values that `csv.DictReader` turns into dictionaries keyed by
every header column (missing trailing cells become `None`), and CSV export
returns a description of what was opened and written.  Environment-supplied
values (fresh ids, the current date and time) are passed in as explicit
arguments.
-/

set_option maxRecDepth 40000

namespace ExpenseTracker

/-- Lexicographic comparison of character lists by code point, the model of
Python's `<` on strings (and of the comparisons performed by `sorted`). -/
def charListLt : List Char → List Char → Bool
  | [], [] => false
  | [], _ :: _ => true
  | _ :: _, [] => false
  | a :: as, b :: bs => if a < b then true else if b < a then false else charListLt as bs

/-- Python `a < b` on strings. -/
def strLtb (a b : String) : Bool := charListLt a.data b.data

/-- Python `a <= b` on strings (total order: `a <= b` iff not `b < a`). -/
def strLeb (a b : String) : Bool := !(charListLt b.data a.data)

/-- The whitespace set of Python's `str.isspace` — the characters `strip()`
and `float()` discard: TAB..CR, FS..US, space, NEL, NBSP and the Unicode
space separators. -/
def pyIsSpace (c : Char) : Bool :=
  let n := c.toNat
  (9 ≤ n && n ≤ 13) || (28 ≤ n && n ≤ 32) ||
  n == 0x85 || n == 0xA0 || n == 0x1680 || (0x2000 ≤ n && n ≤ 0x200A) ||
  n == 0x2028 || n == 0x2029 || n == 0x202F || n == 0x205F || n == 0x3000

/-- Drop Python-whitespace from both ends of a character list. -/
def trimChars (cs : List Char) : List Char :=
  ((cs.dropWhile pyIsSpace).reverse.dropWhile pyIsSpace).reverse

/-- Python `str.strip()`: remove leading and trailing whitespace. -/
def strTrim (s : String) : String := String.mk (trimChars s.data)

/-- Python `str.lower()` (restricted to ASCII case folding, which is all the
claims exercise; Python folds full Unicode). -/
def strLower (s : String) : String := String.mk (s.data.map Char.toLower)

/-- Numeric value of a decimal digit character. -/
def digitVal (c : Char) : Nat := c.toNat - 48

/-- All characters are decimal digits. -/
def allDigits (cs : List Char) : Bool := cs.all Char.isDigit

/-- Value of a digit string read in base 10. -/
def digitsToNat (cs : List Char) : Nat := cs.foldl (fun n c => 10 * n + digitVal c) 0

/-- An IEEE-754 binary64 value: NaN, a signed infinity, or a finite value
`(-1)^neg * mag * 2^(-1074)` — every finite double is an integer multiple of
the smallest subnormal, so `mag` represents it exactly.  `finite true 0` is
the negative zero. -/
inductive F64
  | nan
  | inf (neg : Bool)
  | finite (neg : Bool) (mag : Nat)
deriving DecidableEq, Repr

/-- The float `0.0` (also standing in for Python's int `0` where the source
mixes the two numerically). -/
def f64Zero : F64 := F64.finite false 0

/-- Number of binary digits, by fuel-bounded halving (structural, so the
kernel can evaluate it; the fuel covers every magnitude a finite double
computation can produce, and larger inputs only arise on the way to an
overflow, where the rounding below saturates to infinity regardless). -/
def bitLenAux : Nat → Nat → Nat
  | 0, _ => 0
  | fuel + 1, n => if n = 0 then 0 else bitLenAux fuel (n / 2) + 1

/-- Bit length with fuel 2400 (finite doubles scale to at most 2^2098,
sums of two of them to at most 2^2099). -/
def bitLen (n : Nat) : Nat := bitLenAux 2400 n

/-- Largest finite double, scaled by 2^1074: (2^53 - 1) * 2^971 * 2^1074. -/
def maxScaled : Nat := (2 ^ 53 - 1) * 2 ^ 2045

/-- Round the positive rational `num / den` — a double value scaled by
2^1074 — to the nearest representable double magnitude, ties to even,
`none` on overflow to infinity.  The granularity is 2^(L-53) where L is the
bit length of the integer part: integers up to 2^53 (the subnormal and
small-normal range) are exact, above that the result keeps 53 significant
bits. -/
def roundPosScaled (num den : Nat) : Option Nat :=
  let L := bitLen (num / den)
  let k := L - 53
  let step := den * 2 ^ k
  let q := num / step
  let r := num % step
  let q' :=
    if 2 * r < step then q
    else if step < 2 * r then q + 1
    else if q % 2 = 0 then q else q + 1
  let rounded := q' * 2 ^ k
  if rounded ≤ maxScaled then some rounded else none

/-- IEEE-754 addition: NaN propagates, opposite infinities give NaN, the
exact integer sum of finite values is rounded to nearest-even (overflow to
infinity); an exact zero sum is +0 unless both operands are -0. -/
def addF64 : F64 → F64 → F64
  | .nan, _ => .nan
  | _, .nan => .nan
  | .inf s1, .inf s2 => if s1 = s2 then .inf s1 else .nan
  | .inf s1, .finite _ _ => .inf s1
  | .finite _ _, .inf s2 => .inf s2
  | .finite s1 m1, .finite s2 m2 =>
      let v1 : Int := if s1 then -(m1 : Int) else (m1 : Int)
      let v2 : Int := if s2 then -(m2 : Int) else (m2 : Int)
      let v := v1 + v2
      if v = 0 then .finite (s1 && s2) 0
      else
        match roundPosScaled v.natAbs 1 with
        | some m => .finite (decide (v < 0)) m
        | none => .inf (decide (v < 0))

/-- IEEE-754 division restricted to what the program reaches (`total/count`
with a positive integer count): the exact quotient of finite values is
rounded to nearest-even.  Finite/zero is left at NaN — in Python it raises
`ZeroDivisionError`, and `get_summary` never divides by zero. -/
def divF64 : F64 → F64 → F64
  | .nan, _ => .nan
  | _, .nan => .nan
  | .inf _, .inf _ => .nan
  | .inf s1, .finite s2 _ => .inf (s1 != s2)
  | .finite s1 _, .inf s2 => .finite (s1 != s2) 0
  | .finite s1 m1, .finite s2 m2 =>
      if m2 = 0 then .nan
      else if m1 = 0 then .finite (s1 != s2) 0
      else
        match roundPosScaled (m1 * 2 ^ 1074) m2 with
        | some m => .finite (s1 != s2) m
        | none => .inf (s1 != s2)

/-- Conversion of a non-negative integer to a double (exact up to 2^53,
rounded beyond), the model of Python's int-to-float coercion. -/
def natToF64 (n : Nat) : F64 :=
  if n = 0 then f64Zero
  else
    match roundPosScaled (n * 2 ^ 1074) 1 with
    | some m => .finite false m
    | none => .inf false

/-- Python `<=` on floats: false whenever either side is NaN, signed zeros
equal, otherwise the numeric order. -/
def leF64 : F64 → F64 → Bool
  | .nan, _ => false
  | _, .nan => false
  | .inf true, _ => true
  | _, .inf false => true
  | .inf false, _ => false
  | _, .inf true => false
  | .finite s1 m1, .finite s2 m2 =>
      decide ((if s1 then -(m1 : Int) else (m1 : Int)) ≤
              (if s2 then -(m2 : Int) else (m2 : Int)))

/-- Python `<` on floats: false whenever either side is NaN. -/
def ltF64 : F64 → F64 → Bool
  | .nan, _ => false
  | _, .nan => false
  | .inf true, .inf true => false
  | .inf true, _ => true
  | _, .inf true => false
  | .inf false, _ => false
  | _, .inf false => true
  | .finite s1 m1, .finite s2 m2 =>
      decide ((if s1 then -(m1 : Int) else (m1 : Int)) <
              (if s2 then -(m2 : Int) else (m2 : Int)))

/-- Stand-in textual form of a float for the CSV export (`p-1074` scaled
notation; Python prints the shortest round-tripping decimal instead, which
no claim depends on). -/
def f64Str : F64 → String
  | .nan => "nan"
  | .inf true => "-inf"
  | .inf false => "inf"
  | .finite neg m => (if neg then "-" else "") ++ toString m ++ "p-1074"

/-- Every underscore sits between two digits — Python's rule for numeric
literals accepted by `float`. -/
def underscoresOkAux : Option Char → List Char → Bool
  | _, [] => true
  | prev, c :: rest =>
      if c = '_' then
        (match prev with
         | some p => p.isDigit
         | none => false) &&
        (match rest with
         | d :: _ => d.isDigit
         | [] => false) &&
        underscoresOkAux (some c) rest
      else underscoresOkAux (some c) rest

/-- Underscore placement check over a whole numeric token. -/
def underscoresOk (cs : List Char) : Bool := underscoresOkAux none cs

/-- Parse the mantissa of a float literal: a digit string, or integer and
fractional digit strings around one dot, at least one of them non-empty
(`"5."` and `".5"` both parse, `"."` does not).  Returns the digits' value
and the number of fractional digits. -/
def parseMantissa (cs : List Char) : Option (Nat × Nat) :=
  match List.splitOn '.' cs with
  | [ip] => if !ip.isEmpty && allDigits ip then some (digitsToNat ip, 0) else none
  | [ip, fp] =>
      if (!ip.isEmpty || !fp.isEmpty) && allDigits ip && allDigits fp then
        some (digitsToNat (ip ++ fp), fp.length)
      else none
  | _ => none

/-- Parse an exponent: optional sign then a non-empty digit string. -/
def parseExponent (cs : List Char) : Option Int :=
  match cs with
  | '+' :: r => if !r.isEmpty && allDigits r then some ((digitsToNat r : Nat) : Int) else none
  | '-' :: r => if !r.isEmpty && allDigits r then some (-((digitsToNat r : Nat) : Int)) else none
  | r => if !r.isEmpty && allDigits r then some ((digitsToNat r : Nat) : Int) else none

/-- Round the decimal value `D * 10^effExp` to a double magnitude
(`none` = overflow to infinity; underflow to zero falls out of the
rounding). -/
def roundDecimalScaled (D : Nat) (effExp : Int) : Option Nat :=
  if 0 ≤ effExp then roundPosScaled (D * 10 ^ effExp.toNat * 2 ^ 1074) 1
  else roundPosScaled (D * 2 ^ 1074) (10 ^ (-effExp).toNat)

/-- Parse the unsigned numeric token of a float literal (after the optional
sign): `none` = invalid, `some none` = overflow to infinity,
`some (some m)` = finite magnitude `m` (scaled). -/
def pyFloatFinite (cs : List Char) : Option (Option Nat) :=
  if underscoresOk cs then
    let stripped := cs.filter (fun c => c != '_')
    match List.splitOn 'e' (stripped.map Char.toLower) with
    | [mant] =>
        match parseMantissa mant with
        | some (D, t) =>
            if D = 0 then some (some 0)
            else
              match roundDecimalScaled D (-(t : Int)) with
              | some m => some (some m)
              | none => some none
        | none => none
    | [mant, ex] =>
        match parseMantissa mant, parseExponent ex with
        | some (D, t), some E =>
            if D = 0 then some (some 0)
            else
              match roundDecimalScaled D (E - (t : Int)) with
              | some m => some (some m)
              | none => some none
        | _, _ => none
    | _ => none
  else none

/-- Python `float(s)`: strip whitespace, take an optional sign, accept
`nan` / `inf` / `infinity` case-insensitively, otherwise parse a decimal
literal (optional fraction, optional exponent, underscores between digits)
and round it to the nearest double, saturating to infinity and underflowing
to (signed) zero exactly as `float` does.  Returns `none` where `float`
raises `ValueError`. -/
def pyFloat (s : String) : Option F64 :=
  match trimChars s.data with
  | [] => none
  | cs =>
    let signSplit : Bool × List Char :=
      match cs with
      | '-' :: r => (true, r)
      | '+' :: r => (false, r)
      | r => (false, r)
    let neg := signSplit.1
    let body := signSplit.2
    match body.map Char.toLower with
    | ['n', 'a', 'n'] => some F64.nan
    | ['i', 'n', 'f'] => some (F64.inf neg)
    | ['i', 'n', 'f', 'i', 'n', 'i', 't', 'y'] => some (F64.inf neg)
    | _ =>
      match pyFloatFinite body with
      | none => none
      | some none => some (F64.inf neg)
      | some (some m) => some (F64.finite neg m)

/-- An expense record, the dictionary built by `ExpenseManager.add_expense`
made into a fixed-shape structure: `id`, `amount`, `category`, `description`,
`date` and `created_at`, with the amount an IEEE-754 double. -/
structure Expense where
  id : String
  amount : F64
  category : String
  description : String
  date : String
  created_at : String
deriving DecidableEq, Repr

/-- State of the persisted data file as `load_expenses` distinguishes it:
missing (`os.path.exists` false, or `FileNotFoundError`), present but not
valid JSON (`json.JSONDecodeError`), or present with a well-formed list of
expense records. -/
inductive FileState
  | missing
  | malformed
  | wellFormed (records : List Expense)

/-- `ExpenseManager.load_expenses`: replaces the in-memory store with the
file's records; a missing file or malformed content yields the empty store.
Both exception paths of the source are caught there, so the function is
total: no outcome raises to the caller. -/
def load_expenses : FileState → List Expense
  | .missing => []
  | .malformed => []
  | .wellFormed records => records

/-- `ExpenseManager.add_expense`: builds the record (trimming category and
description, defaulting the date to today) and appends it to the store.  The
generated id (`uuid`), today's date and the `created_at` timestamp are
environment inputs, passed explicitly.  No validation is performed here. -/
def add_expense (s : List Expense) (amount : F64) (category description : String)
    (expense_date : Option String) (today new_id now : String) :
    List Expense × Expense :=
  let d := expense_date.getD today
  let e : Expense := { id := new_id, amount := amount, category := strTrim category,
                       description := strTrim description, date := d, created_at := now }
  (s ++ [e], e)

/-- One step of the stable descending insertion: `e` goes in front of the
first element whose `created_at` is not strictly greater.  Equal keys keep
the earlier element first, which is exactly the stability Python's `sorted`
guarantees with `reverse=True`. -/
def insertByCreatedDesc (e : Expense) : List Expense → List Expense
  | [] => [e]
  | x :: xs =>
      if strLtb e.created_at x.created_at then x :: insertByCreatedDesc e xs
      else e :: x :: xs

/-- Stable sort by `created_at` descending, the model of
`sorted(self.expenses, key=lambda x: x['created_at'], reverse=True)`. -/
def sortByCreatedDesc : List Expense → List Expense
  | [] => []
  | x :: xs => insertByCreatedDesc x (sortByCreatedDesc xs)

/-- `ExpenseManager.get_all_expenses`: returns a sorted copy (most recently
created first); `self.expenses` is not reassigned. -/
def get_all_expenses (s : List Expense) : List Expense × List Expense :=
  (s, sortByCreatedDesc s)

/-- `ExpenseManager.get_expenses_by_category`: case-insensitive exact match,
by a list comprehension over `self.expenses` in order. -/
def get_expenses_by_category (s : List Expense) (category : String) :
    List Expense × List Expense :=
  (s, s.filter (fun e => strLower e.category == strLower category))

/-- `ExpenseManager.get_expenses_by_date_range`: inclusive lexicographic
string comparison against the `date` field, in store order. -/
def get_expenses_by_date_range (s : List Expense) (start_date end_date : String) :
    List Expense × List Expense :=
  (s, s.filter (fun e => strLeb start_date e.date && strLeb e.date end_date))

/-- `ExpenseManager.delete_expense`: keeps the records whose id differs from
the argument (so it removes ALL matches) and returns whether the list got
shorter. -/
def delete_expense (s : List Expense) (expense_id : String) : List Expense × Bool :=
  let remaining := s.filter (fun e => e.id != expense_id)
  (remaining, decide (remaining.length < s.length))

/-- The dictionary returned by `ExpenseManager.get_summary` (the int zeros
of the empty branch are modelled as the float zero, their numeric value). -/
structure Summary where
  total : F64
  count : Nat
  average : F64
  categories : List (String × F64)
deriving DecidableEq, Repr

/-- Python `sum` of the amounts: a left fold of float additions starting
from 0. -/
def sumAmounts (s : List Expense) : F64 :=
  s.foldl (fun acc e => addF64 acc e.amount) f64Zero

/-- One update of the per-category totals dictionary:
`categories[cat] = categories.get(cat, 0) + amount` — note the source adds
the amount to the default 0 even for a fresh key, so `-0.0` is stored as
`0.0` — on an insertion-ordered association list with unique keys, the model
of a Python dict. -/
def addToCat (cats : List (String × F64)) (c : String) (a : F64) : List (String × F64) :=
  match cats with
  | [] => [(c, addF64 f64Zero a)]
  | (c0, v0) :: rest =>
      if c0 = c then (c0, addF64 v0 a) :: rest else (c0, v0) :: addToCat rest c a

/-- The per-category totals dictionary built by the loop in `get_summary`. -/
def categoryTotals (s : List Expense) : List (String × F64) :=
  s.foldl (fun cats e => addToCat cats e.category e.amount) []

/-- `ExpenseManager.get_summary`: all-zero summary with an empty mapping on
an empty store, otherwise total, count, `total / count if count > 0 else 0`,
and the per-category totals. -/
def get_summary (s : List Expense) : List Expense × Summary :=
  if s.isEmpty then (s, ⟨f64Zero, 0, f64Zero, []⟩)
  else
    let total := sumAmounts s
    let count := s.length
    (s, ⟨total, count,
         if count > 0 then divF64 total (natToF64 count) else f64Zero,
         categoryTotals s⟩)

/-- Ascending insertion for strings (code-point lexicographic order). -/
def insertStrAsc (c : String) : List String → List String
  | [] => [c]
  | x :: xs => if charListLt x.data c.data then x :: insertStrAsc c xs else c :: x :: xs

/-- Ascending sort of strings, the model of Python `sorted` on strings. -/
def sortStrAsc : List String → List String
  | [] => []
  | x :: xs => insertStrAsc x (sortStrAsc xs)

/-- `ExpenseManager.get_categories`: `sorted(list(set(...)))`, the distinct
stored category strings in ascending order. -/
def get_categories (s : List Expense) : List Expense × List String :=
  (s, sortStrAsc (s.map Expense.category).dedup)

/-- `ExpenseManager.validate_expense`: accumulates the error messages exactly
as the source does — amount parse failure, or `amount_float <= 0` under
Python float comparison (so NaN raises no amount error), then empty trimmed
category, then empty trimmed description. -/
def validate_expense (amount category description : String) : List String :=
  let errors : List String := []
  let errors :=
    match pyFloat amount with
    | some amount_float =>
        if leF64 amount_float f64Zero then errors ++ ["Amount must be positive"]
        else errors
    | none => errors ++ ["Amount must be a valid number"]
  let errors := if strTrim category == "" then errors ++ ["Category is required"] else errors
  let errors := if strTrim description == "" then errors ++ ["Description is required"] else errors
  errors

/-- Spec reading of validation: the concatenation of all applicable error
messages — amount not parsing, parsed amount comparing `<= 0` (the program's
actual gate: NaN compares false and raises no error), category empty after
trimming, description empty after trimming. -/
def applicableErrors (amount category description : String) : List String :=
  (match pyFloat amount with
   | none => ["Amount must be a valid number"]
   | some q => if leF64 q f64Zero then ["Amount must be positive"] else []) ++
  (if strTrim category == "" then ["Category is required"] else []) ++
  (if strTrim description == "" then ["Description is required"] else [])

/-- The input triples validation accepts: the amount text parses and the
parsed value does not compare `<= 0` (positive finite, +infinity, or NaN —
NaN comparisons are all false), and category and description are non-empty
after trimming. -/
def isValidExpenseInput (amount category description : String) : Bool :=
  (match pyFloat amount with
   | some q => !(leF64 q f64Zero)
   | none => false) &&
  !(strTrim category == "") && !(strTrim description == "")

/-- What `ExpenseTrackerCLI.export_expenses` did to the target file:
whether the file was opened for writing (created or truncated), the lines
written into it (header first, then one row per record), and the message
printed. -/
structure ExportResult where
  fileCreated : Bool
  lines : List (List String)
  message : String
deriving Repr

/-- The fixed CSV column order used by export. -/
def exportFieldnames : List String :=
  ["id", "amount", "category", "description", "date", "created_at"]

/-- One CSV row of an expense, in export column order. -/
def serializeExpense (e : Expense) : List String :=
  [e.id, f64Str e.amount, e.category, e.description, e.date, e.created_at]

/-- `ExpenseTrackerCLI.export_expenses`: the source opens the file with mode
`w` BEFORE testing for emptiness, so the file is created (or truncated) in
every case; on an empty store nothing is then written and
"No expenses to save" is printed, otherwise the header and all rows are
written. -/
def export_expenses (s : List Expense) : ExportResult :=
  if s.isEmpty then { fileCreated := true, lines := [], message := "No expenses to save" }
  else
    { fileCreated := true,
      lines := exportFieldnames :: s.map serializeExpense,
      message := "Expenses saved" }

/-- Outcome of an import run, as reported to the user: the whole-import
format failure, an abort through the generic exception handler (a `None`
cell reaching `float()` or `.strip()`), the no-valid-rows report, the count
of added records — or `unmodelled`, the model boundary: the program would
append a record holding Python `None` in `id`, `date` or `created_at`
(from a short physical row), which the string-typed `Expense` cannot
represent; the model makes no assertion about such runs. -/
inductive ImportOutcome
  | formatError
  | crashed
  | noValid
  | added (count : Nat)
  | unmodelled
deriving DecidableEq, Repr

/-- A CSV file as the `csv` module reads it: the header fieldnames and the
data rows' cell values. -/
structure CSVInput where
  fieldnames : List String
  records : List (List String)

/-- The dictionary `csv.DictReader` yields for one data row: EVERY header
fieldname is a key; a row shorter than the header maps its missing trailing
columns to `None` (restval), and extra cells beyond the header (collected
under the `None` restkey, which the program never reads) are dropped. -/
def dictRow (fieldnames : List String) (record : List String) :
    List (String × Option String) :=
  fieldnames.zip (record.map some ++
    List.replicate (fieldnames.length - record.length) none)

/-- The five columns `import_expenses` requires in every row. -/
def requiredColumns : List String := ["id", "amount", "category", "description", "date"]

/-- The source's per-row check `all(key in row for key in [...])` — on a
`DictReader` row this depends only on the header's fieldnames. -/
def rowComplete (row : List (String × Option String)) : Bool :=
  requiredColumns.all (fun k => (row.lookup k).isSome)

/-- Cell access `row[k]`: the present key's value, which is `None` for a
padded missing cell (defaulting defensively for absent keys, which the
completeness check has already excluded where this is used). -/
def rowCell (row : List (String × Option String)) (k : String) : Option String :=
  (row.lookup k).getD none

/-- What the loop body does with one complete row: abort the import through
the generic handler (`float(None)` is a `TypeError`, `None.strip()` an
`AttributeError` — neither is the caught `ValueError`), skip the row, keep a
constructed record — or leave the model (`unmodelled`) when the program
would store Python `None` in a string field. -/
inductive RowStep
  | crash
  | skip
  | keep (e : Expense)
  | unmodelled
deriving DecidableEq, Repr

/-- The row is handled inside the loop (skipped or kept) rather than
aborting it or leaving the model. -/
def RowStep.isProcessed : RowStep → Bool
  | .skip => true
  | .keep _ => true
  | _ => false

/-- The record a kept row contributes. -/
def keptExpense : RowStep → Option Expense
  | .keep e => some e
  | _ => none

/-- The body of the import loop for one complete row, in source order:
`float(row['amount'])` — a `None` cell aborts (TypeError), a failing parse
skips (`ValueError`), a parsed value with `amount <= 0` skips (so NaN is
KEPT); then the record is built — a `None` category or description aborts
(`.strip()` on `None`), a `None` id, date, or present-but-`None`
`created_at` would store `None` (outside this model); `created_at` falls
back to the current time only when its column is absent. -/
def rowStep (now : String) (row : List (String × Option String)) : RowStep :=
  match rowCell row "amount" with
  | none => RowStep.crash
  | some amountText =>
    match pyFloat amountText with
    | none => RowStep.skip
    | some amount =>
      if leF64 amount f64Zero then RowStep.skip
      else
        match rowCell row "category", rowCell row "description" with
        | none, _ => RowStep.crash
        | some _, none => RowStep.crash
        | some category, some description =>
          match rowCell row "id", rowCell row "date", row.lookup "created_at" with
          | some theId, some theDate, none =>
              RowStep.keep { id := theId, amount := amount,
                             category := strTrim category,
                             description := strTrim description,
                             date := theDate, created_at := now }
          | some theId, some theDate, some (some ca) =>
              RowStep.keep { id := theId, amount := amount,
                             category := strTrim category,
                             description := strTrim description,
                             date := theDate, created_at := ca }
          | _, _, _ => RowStep.unmodelled

/-- Result of running the import loop over all rows. -/
inductive LoopResult
  | formatAbort
  | crashAbort
  | outOfModel
  | done (kept : List Expense)
deriving DecidableEq, Repr

/-- The import loop over the reader's rows: the first row missing a required
column aborts with the format error; a crashing row aborts the whole import
through the generic handler; skipped rows contribute nothing; kept rows
accumulate in order. -/
def importLoop (now : String) : List (List (String × Option String)) → LoopResult
  | [] => .done []
  | row :: rest =>
      if rowComplete row then
        match rowStep now row with
        | .crash => .crashAbort
        | .unmodelled => .outOfModel
        | .skip => importLoop now rest
        | .keep e =>
            match importLoop now rest with
            | .done kept => .done (e :: kept)
            | r => r
      else .formatAbort

/-- `ExpenseTrackerCLI.import_expenses` on a readable CSV file: runs the
loop over the `DictReader` rows; any abort leaves the store untouched with
zero records added, an empty accumulated list reports no valid expenses,
otherwise the kept records are appended
(`self.manager.expenses.extend(...)`) and their count reported. -/
def import_expenses (s : List Expense) (input : CSVInput) (now : String) :
    List Expense × ImportOutcome :=
  match importLoop now (input.records.map (dictRow input.fieldnames)) with
  | .formatAbort => (s, .formatError)
  | .crashAbort => (s, .crashed)
  | .outOfModel => (s, .unmodelled)
  | .done [] => (s, .noValid)
  | .done kept => (s ++ kept, .added kept.length)

/-- Syntactically valid ISO-8601 calendar date string: `YYYY-MM-DD`, all
digits, month in 1..12, day in 1..31. -/
def isValidISODate (s : String) : Bool :=
  match s.data with
  | [y1, y2, y3, y4, h1, m1, m2, h2, d1, d2] =>
      y1.isDigit && y2.isDigit && y3.isDigit && y4.isDigit &&
      (h1 == '-') && (h2 == '-') &&
      m1.isDigit && m2.isDigit && d1.isDigit && d2.isDigit &&
      (let m := 10 * digitVal m1 + digitVal m2
       let d := 10 * digitVal d1 + digitVal d2
       decide (1 ≤ m) && decide (m ≤ 12) && decide (1 ≤ d) && decide (d ≤ 31))
  | _ => false

/-- The record invariant claimed by the spec: amount greater than 0 (under
float comparison), non-empty category and description, syntactically valid
date. -/
def expenseInv (e : Expense) : Bool :=
  ltF64 f64Zero e.amount && !(e.category == "") && !(e.description == "") &&
  isValidISODate e.date

/-- One mutating operation on the store, with its environment inputs. -/
inductive Step : List Expense → List Expense → Prop
  | load (s : List Expense) (fs : FileState) : Step s (load_expenses fs)
  | add (s : List Expense) (amount : F64) (category description : String)
      (expense_date : Option String) (today new_id now : String) :
      Step s (add_expense s amount category description expense_date today new_id now).1
  | delete (s : List Expense) (expense_id : String) :
      Step s (delete_expense s expense_id).1
  | imp (s : List Expense) (input : CSVInput) (now : String) :
      Step s (import_expenses s input now).1

/-- Store states observable in some run: the constructor loads, then any
sequence of load, add, delete and import operations. -/
inductive Reachable : List Expense → Prop
  | init (fs : FileState) : Reachable (load_expenses fs)
  | step {s t : List Expense} : Reachable s → Step s t → Reachable t

/-- A two-record demonstration store: same category, the first record created
before the second, so insertion order and created-at-descending order
disagree.  The amount is the double 1.0 (scaled: 2^1074). -/
def demoEarly : Expense :=
  { id := "a1", amount := F64.finite false (2 ^ 1074), category := "Food",
    description := "x", date := "2024-01-01", created_at := "2024-01-01T08:00:00" }

/-- Second demonstration record, created later than `demoEarly`; amount is
the double 2.0. -/
def demoLate : Expense :=
  { id := "b2", amount := F64.finite false (2 ^ 1075), category := "Food",
    description := "y", date := "2024-01-02", created_at := "2024-01-02T09:00:00" }

/-- The demonstration store, `demoEarly` inserted first. -/
def demoStore : List Expense := [demoEarly, demoLate]

/-- A record violating every part of the claimed invariant (amount is the
double -5.0). -/
def badExpense : Expense :=
  { id := "bad", amount := F64.finite true (5 * 2 ^ 1074), category := "",
    description := "", date := "not-a-date", created_at := "2024-06-01T12:00:00" }

/-- A one-row CSV input with all required columns and a valid amount. -/
def csvDemo : CSVInput :=
  { fieldnames := ["id", "amount", "category", "description", "date"],
    records := [["x1", "5", "Food", "Lunch", "2024-01-01"]] }

/-- The record the demonstration import constructs (amount is the double
5.0). -/
def csvDemoExpense : Expense :=
  { id := "x1", amount := F64.finite false (5 * 2 ^ 1074), category := "Food",
    description := "Lunch", date := "2024-01-01", created_at := "2024-06-01T12:00:00" }

/-- A CSV input whose header misses the required `category` column and which
has no data rows. -/
def c8HeaderOnly : CSVInput :=
  { fieldnames := ["id", "amount", "description", "date"], records := [] }

/-- First record of the float-associativity counterexample store: amount
2^53 (scaled: 2^1127), category "A". -/
def cexBig : Expense :=
  { id := "p1", amount := F64.finite false (2 ^ 1127), category := "A",
    description := "w", date := "2024-01-01", created_at := "2024-01-01T00:00:01" }

/-- Second record: amount 1.0, category "B". -/
def cexOne : Expense :=
  { id := "p2", amount := F64.finite false (2 ^ 1074), category := "B",
    description := "w", date := "2024-01-01", created_at := "2024-01-01T00:00:02" }

/-- Third record: amount 2.0, category "A". -/
def cexTwo : Expense :=
  { id := "p3", amount := F64.finite false (2 ^ 1075), category := "A",
    description := "w", date := "2024-01-01", created_at := "2024-01-01T00:00:03" }

/-- Store with all-positive amounts [2^53, 1.0, 2.0] in categories
[A, B, A]: float addition is not associative, so grouping by category
changes the total. -/
def cexStore : List Expense := [cexBig, cexOne, cexTwo]

/-- Claim C1, counterexample.  The claim says an export of an empty store
does not create an empty output file; but the source opens the target with
mode `w` before testing for emptiness, so on the empty store the file is
created (truncated) even though nothing is written into it. -/
theorem C1_export_empty_counterexample :
    (export_expenses []).fileCreated = true ∧ (export_expenses []).lines = [] :=
  ⟨rfl, rfl⟩

/-- Claim C1 (amended): on an empty store the export writes nothing — no
rows and not even the header — and reports "No expenses to save"; but the
target file has already been opened in write mode, so an empty file is
created (or an existing one truncated).  On a non-empty store the header and
one row per record are written. -/
theorem C1_export_empty_amended :
    (export_expenses []).lines = [] ∧
    (export_expenses []).message = "No expenses to save" ∧
    (export_expenses []).fileCreated = true ∧
    ∀ (e : Expense) (s : List Expense),
      (export_expenses (e :: s)).lines = exportFieldnames :: (e :: s).map serializeExpense :=
  ⟨rfl, rfl, rfl, fun _ _ => rfl⟩

/-- Claim C3: `load_expenses` is a total function of the file state (every
exception path of the source is caught inside it), and a missing file or
malformed content yields the empty store while well-formed content is
installed as-is. -/
theorem C3_load_never_raises :
    load_expenses FileState.missing = [] ∧
    load_expenses FileState.malformed = [] ∧
    ∀ records : List Expense, load_expenses (FileState.wellFormed records) = records :=
  ⟨rfl, rfl, fun _ => rfl⟩

/-- Claim C9: the five query operations return their results without
touching the in-memory store — the store component of each result is the
input store, same records in the same order. -/
theorem C9_queries_leave_store_unchanged :
    ∀ (s : List Expense) (category start_date end_date : String),
      (get_all_expenses s).1 = s ∧
      (get_expenses_by_category s category).1 = s ∧
      (get_expenses_by_date_range s start_date end_date).1 = s ∧
      (get_summary s).1 = s ∧
      (get_categories s).1 = s := by
  intro s category start_date end_date
  refine ⟨rfl, rfl, rfl, ?_, rfl⟩
  unfold get_summary
  split <;> rfl

/-- Claim C10: the two filter operations return exactly the matching records
as a subsequence of the store in insertion order; on the demonstration
store the category filter keeps insertion order while `get_all_expenses`
reorders by `created_at` descending. -/
theorem C10_filters_preserve_insertion_order :
    (∀ (s : List Expense) (category : String),
        (get_expenses_by_category s category).2 =
          s.filter (fun e => strLower e.category == strLower category) ∧
        ((get_expenses_by_category s category).2).Sublist s) ∧
    (∀ (s : List Expense) (start_date end_date : String),
        (get_expenses_by_date_range s start_date end_date).2 =
          s.filter (fun e => strLeb start_date e.date && strLeb e.date end_date) ∧
        ((get_expenses_by_date_range s start_date end_date).2).Sublist s) ∧
    (get_expenses_by_category demoStore "Food").2 = [demoEarly, demoLate] ∧
    (get_all_expenses demoStore).2 = [demoLate, demoEarly] := by
  refine ⟨fun s category => ⟨rfl, List.filter_sublist s⟩,
          fun s a b => ⟨rfl, List.filter_sublist s⟩, ?_, ?_⟩ <;> decide

/-- Claim C4: `delete_expense` keeps exactly the records whose id differs
from the argument (a subsequence of the store; the count of removed records
is the count of matches), and the returned flag is true exactly when some
record matched, false exactly when the store is unchanged. -/
theorem C4_delete_semantics :
    ∀ (s : List Expense) (expense_id : String),
      (delete_expense s expense_id).1 = s.filter (fun e => e.id != expense_id) ∧
      ((delete_expense s expense_id).1).Sublist s ∧
      (delete_expense s expense_id).1.length
        + s.countP (fun e => e.id == expense_id) = s.length ∧
      ((delete_expense s expense_id).2 = true ↔ ∃ e ∈ s, e.id = expense_id) ∧
      ((delete_expense s expense_id).2 = false ↔ (delete_expense s expense_id).1 = s) := by
  intro s i
  refine ⟨rfl, List.filter_sublist s, ?_, ?_, ?_⟩
  · have h := List.length_eq_countP_add_countP (fun e => e.id == i) s
    have hc : List.countP (fun e => decide ¬(e.id == i) = true) s
        = List.countP (fun e => e.id != i) s := by
      apply List.countP_congr
      intro e _
      simp [bne]
    simp only [delete_expense]
    rw [← List.countP_eq_length_filter]
    omega
  · simp only [delete_expense, decide_eq_true_iff]
    rw [List.length_filter_lt_length_iff_exists]
    constructor
    · rintro ⟨e, he, hp⟩
      exact ⟨e, he, by simpa using hp⟩
    · rintro ⟨e, he, hp⟩
      exact ⟨e, he, by simpa using hp⟩
  · simp only [delete_expense, decide_eq_false_iff_not, not_lt]
    constructor
    · intro h
      exact List.Sublist.eq_of_length (List.filter_sublist s)
        (le_antisymm (List.Sublist.length_le (List.filter_sublist s)) h)
    · intro h
      rw [h]

/-- Comparison of a character list with itself is never `true`. -/
theorem charListLt_irrefl : ∀ cs : List Char, charListLt cs cs = false
  | [] => rfl
  | c :: cs => by simp [charListLt, lt_irrefl c, charListLt_irrefl cs]

/-- The lexicographic comparison is asymmetric. -/
theorem charListLt_asymm : ∀ {a b : List Char},
    charListLt a b = true → charListLt b a = false
  | [], [], h => by simp [charListLt] at h
  | [], _ :: _, _ => rfl
  | _ :: _, [], h => by simp [charListLt] at h
  | a :: as, b :: bs, h => by
      unfold charListLt at h ⊢
      by_cases hab : a < b
      · simp [hab, lt_asymm hab]
      · by_cases hba : b < a
        · simp [hab, hba] at h
        · simp only [if_neg hab, if_neg hba] at h ⊢
          exact charListLt_asymm h

/-- Transitivity of the non-strict order induced by the comparison. -/
theorem charListLt_false_trans : ∀ {a b c : List Char},
    charListLt a b = false → charListLt b c = false → charListLt a c = false
  | [], [], [], _, _ => rfl
  | [], [], _ :: _, _, h2 => by simp [charListLt] at h2
  | [], _ :: _, _, h1, _ => by simp [charListLt] at h1
  | _ :: _, _, [], _, _ => rfl
  | x :: xs, [], z :: zs, _, h2 => by simp [charListLt] at h2
  | x :: xs, y :: ys, z :: zs, h1, h2 => by
      unfold charListLt at h1 h2 ⊢
      by_cases hxy : x < y
      · simp [hxy] at h1
      · by_cases hyz : y < z
        · simp [hyz] at h2
        · have hzx : z ≤ x := le_trans (le_of_not_lt hyz) (le_of_not_lt hxy)
          have hxz : ¬ x < z := not_lt_of_ge hzx
          by_cases hzx2 : z < x
          · simp [hxz, hzx2]
          · have hxeqz : x = z := le_antisymm (le_of_not_lt hzx2) hzx
            have hyeqx : y = x :=
              le_antisymm (le_of_not_lt hxy) (le_trans hxeqz.le (le_of_not_lt hyz))
            subst hyeqx
            subst hxeqz
            simp only [if_neg (lt_irrefl _)] at h1 h2 ⊢
            exact charListLt_false_trans h1 h2

/-- String versions of the three order facts. -/
theorem strLtb_irrefl (a : String) : strLtb a a = false := charListLt_irrefl a.data

/-- Asymmetry for `strLtb`. -/
theorem strLtb_asymm {a b : String} (h : strLtb a b = true) : strLtb b a = false :=
  charListLt_asymm h

/-- Transitivity of not-less-than for `strLtb`. -/
theorem strLtb_false_trans {a b c : String} (h1 : strLtb a b = false)
    (h2 : strLtb b c = false) : strLtb a c = false :=
  charListLt_false_trans h1 h2

/-- Inserting permutes: the result is the element consed on the list, up to
reordering. -/
theorem insertByCreatedDesc_perm (e : Expense) :
    ∀ l : List Expense, (insertByCreatedDesc e l).Perm (e :: l)
  | [] => List.Perm.refl _
  | x :: xs => by
      unfold insertByCreatedDesc
      by_cases hlt : strLtb e.created_at x.created_at
      · simp only [hlt, if_true]
        exact (((insertByCreatedDesc_perm e xs).cons x).trans (List.Perm.swap e x xs))
      · simp only [hlt, if_false]
        exact List.Perm.refl _

/-- The descending-by-`created_at` relation the sort establishes: a record
is never strictly older than any record after it. -/
def createdDescRel (a b : Expense) : Prop := strLtb a.created_at b.created_at = false

/-- Inserting into a descending-sorted list keeps it sorted. -/
theorem insertByCreatedDesc_pairwise (e : Expense) :
    ∀ {l : List Expense}, l.Pairwise createdDescRel →
      (insertByCreatedDesc e l).Pairwise createdDescRel
  | [], _ => by simp [insertByCreatedDesc, List.pairwise_cons]
  | x :: xs, h => by
      rcases List.pairwise_cons.mp h with ⟨hx, hxs⟩
      unfold insertByCreatedDesc
      by_cases hlt : strLtb e.created_at x.created_at
      · rw [if_pos hlt]
        refine List.pairwise_cons.mpr ⟨?_, insertByCreatedDesc_pairwise e hxs⟩
        intro y hy
        rcases List.mem_cons.mp ((insertByCreatedDesc_perm e xs).mem_iff.mp hy) with
          hy2 | hy2
        · subst hy2
          exact strLtb_asymm hlt
        · exact hx y hy2
      · rw [if_neg hlt]
        have hlt2 : strLtb e.created_at x.created_at = false := by simpa using hlt
        refine List.pairwise_cons.mpr ⟨?_, h⟩
        intro y hy
        rcases List.mem_cons.mp hy with hy2 | hy2
        · subst hy2
          exact hlt2
        · exact strLtb_false_trans hlt2 (hx y hy2)

/-- The sort is a permutation of its input. -/
theorem sortByCreatedDesc_perm : ∀ s : List Expense, (sortByCreatedDesc s).Perm s
  | [] => List.Perm.refl _
  | x :: xs =>
      (insertByCreatedDesc_perm x (sortByCreatedDesc xs)).trans
        ((sortByCreatedDesc_perm xs).cons x)

/-- The sort output is descending in `created_at`. -/
theorem sortByCreatedDesc_pairwise : ∀ s : List Expense,
    (sortByCreatedDesc s).Pairwise createdDescRel
  | [] => List.Pairwise.nil
  | x :: xs => insertByCreatedDesc_pairwise x (sortByCreatedDesc_pairwise xs)

/-- Stability at the level of one insertion: restricting to any fixed
`created_at` value, inserting `e` puts it first among its equals exactly
when its key matches, and touches nothing else. -/
theorem filter_insertByCreatedDesc (t : String) (e : Expense) :
    ∀ l : List Expense,
      (insertByCreatedDesc e l).filter (fun x => x.created_at == t) =
        if e.created_at == t then e :: l.filter (fun x => x.created_at == t)
        else l.filter (fun x => x.created_at == t)
  | [] => by
      by_cases he : e.created_at == t <;> simp [insertByCreatedDesc, he]
  | x :: xs => by
      unfold insertByCreatedDesc
      by_cases hlt : strLtb e.created_at x.created_at
      · rw [if_pos hlt]
        by_cases he : e.created_at == t
        · have hx : (x.created_at == t) = false := by
            cases hb : (x.created_at == t)
            · rfl
            · exfalso
              have h1 : e.created_at = t := eq_of_beq he
              have h2 : x.created_at = t := eq_of_beq hb
              rw [h1, h2, strLtb_irrefl t] at hlt
              exact Bool.false_ne_true hlt
          simp [List.filter_cons, hx, filter_insertByCreatedDesc t e xs, he]
        · by_cases hx : x.created_at == t <;>
            simp [List.filter_cons, hx, filter_insertByCreatedDesc t e xs, he]
      · rw [if_neg hlt]
        by_cases he : e.created_at == t <;> simp [List.filter_cons, he]

/-- Stability of the whole sort: for any fixed `created_at` value, the sort
leaves the relative order of the records carrying it unchanged. -/
theorem filter_sortByCreatedDesc (t : String) : ∀ s : List Expense,
    (sortByCreatedDesc s).filter (fun x => x.created_at == t) =
      s.filter (fun x => x.created_at == t)
  | [] => rfl
  | x :: xs => by
      unfold sortByCreatedDesc
      rw [filter_insertByCreatedDesc t x (sortByCreatedDesc xs)]
      by_cases hx : x.created_at == t
      · rw [if_pos hx, filter_sortByCreatedDesc t xs,
          List.filter_cons_of_pos (by simpa using hx)]
      · rw [if_neg (by simpa using hx), filter_sortByCreatedDesc t xs,
          List.filter_cons_of_neg (by simpa using hx)]

/-- Claim C7: `get_all_expenses` returns all the records (a permutation of
the store), in `created_at`-descending order, and records sharing a
`created_at` value keep their insertion order. -/
theorem C7_listAll_sorted_stable :
    ∀ s : List Expense,
      ((get_all_expenses s).2).Pairwise createdDescRel ∧
      ((get_all_expenses s).2).Perm s ∧
      ∀ t : String,
        ((get_all_expenses s).2).filter (fun e => e.created_at == t) =
          s.filter (fun e => e.created_at == t) :=
  fun s => ⟨sortByCreatedDesc_pairwise s, sortByCreatedDesc_perm s,
    fun t => filter_sortByCreatedDesc t s⟩

/-- Claim C6, counterexample: Python accepts `"nan"`, and since every
comparison with NaN is false, `amount_float <= 0` raises no error — so
`validate("nan", "a", "b")` returns the empty list although `"nan"` does not
parse to a number greater than 0; the claimed characterisation of the empty
result is false of the program. -/
theorem C6_validate_counterexample :
    validate_expense "nan" "a" "b" = [] ∧
    pyFloat "nan" = some F64.nan ∧
    ltF64 f64Zero F64.nan = false := by
  refine ⟨by decide, by decide, rfl⟩

/-- Claim C6 (amended): `validate_expense` returns exactly the concatenation
of the applicable error messages, where the amount error is "applicable"
exactly when the parsed value compares `<= 0` under Python float comparison
(NaN comparisons are all false, so NaN raises no amount error); the result
is empty iff the amount parses to a value not comparing `<= 0` and category
and description are non-empty after trimming. -/
theorem C6_validate_amended :
    ∀ amount category description : String,
      validate_expense amount category description =
        applicableErrors amount category description ∧
      (validate_expense amount category description = [] ↔
        isValidExpenseInput amount category description = true) := by
  intro a c d
  unfold validate_expense applicableErrors isValidExpenseInput
  rcases hp : pyFloat a with _ | q
  · by_cases hc : strTrim c == "" <;> by_cases hd : strTrim d == "" <;>
      simp [hc, hd]
  · by_cases hq : leF64 q f64Zero <;> by_cases hc : strTrim c == "" <;>
      by_cases hd : strTrim d == "" <;> simp [hq, hc, hd]

/-- Looking up the updated key after one dictionary update: the amount was
added (by a float addition) onto the previous entry, or onto 0 for a fresh
key — exactly `categories.get(cat, 0) + amount`. -/
theorem addToCat_lookup_self : ∀ (m : List (String × F64)) (c : String) (a : F64),
    (addToCat m c a).lookup c = some (addF64 ((m.lookup c).getD f64Zero) a)
  | [], c, a => by simp [addToCat, List.lookup_cons]
  | (k, v) :: m, c, a => by
      unfold addToCat
      by_cases hk : k = c
      · subst hk
        simp [List.lookup_cons]
      · have hb : (c == k) = false := beq_eq_false_iff_ne.mpr (fun h => hk h.symm)
        simp only [if_neg hk, List.lookup_cons, hb]
        exact addToCat_lookup_self m c a

/-- A dictionary update leaves every other key's entry unchanged. -/
theorem addToCat_lookup_other : ∀ (m : List (String × F64)) (c : String) (a : F64)
    (k : String), k ≠ c → (addToCat m c a).lookup k = m.lookup k
  | [], c, a, k, h => by
      have hb : (k == c) = false := beq_eq_false_iff_ne.mpr h
      simp [addToCat, List.lookup_cons, hb]
  | (k0, v) :: m, c, a, k, h => by
      unfold addToCat
      by_cases hk0 : k0 = c
      · subst hk0
        have hb : (k == k0) = false := beq_eq_false_iff_ne.mpr h
        simp [List.lookup_cons, hb]
      · by_cases hkk : k = k0
        · subst hkk
          rw [if_neg hk0]
          simp [List.lookup_cons]
        · have hb : (k == k0) = false := beq_eq_false_iff_ne.mpr hkk
          simp only [if_neg hk0, List.lookup_cons, hb]
          exact addToCat_lookup_other m c a k h

/-- Accumulating records into the dictionary: the entry for a category is
the left float-fold of its records' amounts, in store order, continuing from
the pre-existing entry (or from 0 for a fresh category) — no reassociation
happens, every addition the dictionary performs is recorded. -/
theorem categoryTotals_go_lookup : ∀ (s : List Expense) (m : List (String × F64))
    (c : String),
    (∀ v, m.lookup c = some v →
      (s.foldl (fun cats e => addToCat cats e.category e.amount) m).lookup c =
        some ((s.filter (fun e => e.category == c)).foldl
          (fun acc e => addF64 acc e.amount) v)) ∧
    (m.lookup c = none →
      (s.foldl (fun cats e => addToCat cats e.category e.amount) m).lookup c =
        (if s.any (fun e => e.category == c) then
          some ((s.filter (fun e => e.category == c)).foldl
            (fun acc e => addF64 acc e.amount) f64Zero)
         else none))
  | [], m, c => by
      constructor
      · intro v hv
        simpa using hv
      · intro hnone
        simpa using hnone
  | e :: s, m, c => by
      constructor
      · intro v hv
        simp only [List.foldl_cons]
        by_cases hcat : e.category = c
        · subst hcat
          have hself := addToCat_lookup_self m e.category e.amount
          rw [hv] at hself
          have ih := (categoryTotals_go_lookup s (addToCat m e.category e.amount)
            e.category).1 (addF64 v e.amount) hself
          rw [ih]
          have hbe : (e.category == e.category) = true := beq_self_eq_true _
          simp only [List.filter_cons, hbe, if_true]
          rfl
        · have hother := addToCat_lookup_other m e.category e.amount c
            (fun hh => hcat hh.symm)
          have ih := (categoryTotals_go_lookup s (addToCat m e.category e.amount) c).1
            v (by rw [hother]; exact hv)
          rw [ih]
          have hbe : (e.category == c) = false :=
            beq_eq_false_iff_ne.mpr (fun hh => hcat hh)
          simp only [List.filter_cons, hbe, Bool.false_eq_true, if_false]
      · intro hnone
        simp only [List.foldl_cons]
        by_cases hcat : e.category = c
        · subst hcat
          have hself := addToCat_lookup_self m e.category e.amount
          rw [hnone] at hself
          have ih := (categoryTotals_go_lookup s (addToCat m e.category e.amount)
            e.category).1 (addF64 f64Zero e.amount) hself
          rw [ih]
          have hbe : (e.category == e.category) = true := beq_self_eq_true _
          simp only [List.any_cons, hbe, Bool.true_or, if_true, List.filter_cons]
          rfl
        · have hother := addToCat_lookup_other m e.category e.amount c
            (fun hh => hcat hh.symm)
          have ih := (categoryTotals_go_lookup s (addToCat m e.category e.amount) c).2
            (by rw [hother]; exact hnone)
          rw [ih]
          have hbe : (e.category == c) = false :=
            beq_eq_false_iff_ne.mpr (fun hh => hcat hh)
          simp only [List.any_cons, hbe, Bool.false_or, List.filter_cons,
            Bool.false_eq_true, if_false]

/-- Per-category lookup in the summary dictionary: exactly the stored
categories are present, each mapped to the float sum (in store order) of its
records' amounts. -/
theorem categoryTotals_lookup (s : List Expense) (c : String) :
    (categoryTotals s).lookup c =
      if s.any (fun e => e.category == c) then
        some (sumAmounts (s.filter (fun e => e.category == c)))
      else none :=
  (categoryTotals_go_lookup s [] c).2 rfl

/-- Claim C5, counterexample: on the all-positive store with amounts
[2^53, 1.0, 2.0] in categories [A, B, A], the program's total is
(2^53 + 1) + 2 = 2^53 + 2 (the first addition rounds down, ties to even)
while the category totals are A = 2^53 + 2 and B = 1, whose float sum is
(2^53 + 2) + 1 = 2^53 + 4 (rounds up, ties to even): the claimed identity
"total equals the sum of the categoryTotals values" fails under IEEE-754
addition, which grouping by category reassociates. -/
theorem C5_cross_sum_counterexample :
    (get_summary cexStore).2.total = F64.finite false (2 ^ 1127 + 2 ^ 1075) ∧
    ((get_summary cexStore).2.categories.map Prod.snd).foldl addF64 f64Zero =
      F64.finite false (2 ^ 1127 + 2 ^ 1076) ∧
    decide ((get_summary cexStore).2.total =
      ((get_summary cexStore).2.categories.map Prod.snd).foldl addF64 f64Zero) = false ∧
    (∀ e ∈ cexStore, ltF64 f64Zero e.amount = true) := by
  refine ⟨by decide, by decide, by decide, by decide⟩

/-- Claim C5 (amended): the summary's total is the float sum of all amounts
in store order, the count is the number of records, the average is
total/count as floats (0 for the empty store), the category mapping sends
each stored (case-sensitive) category to the float sum of its records'
amounts in store order, and the empty store yields the all-zero summary
with an empty mapping.  The cross-sum identity (total = sum of the
categoryTotals values) is NOT claimed: it fails under float addition. -/
theorem C5_summary_amended :
    ∀ s : List Expense,
      (get_summary s).2.total = sumAmounts s ∧
      (get_summary s).2.count = s.length ∧
      (get_summary s).2.average =
        (if s.length = 0 then f64Zero else divF64 (sumAmounts s) (natToF64 s.length)) ∧
      (get_summary s).2.categories = categoryTotals s ∧
      (∀ c : String, ((get_summary s).2.categories).lookup c =
        (if s.any (fun e => e.category == c) then
           some (sumAmounts (s.filter (fun e => e.category == c)))
         else none)) ∧
      (get_summary []).2 = ⟨f64Zero, 0, f64Zero, []⟩ := by
  intro s
  cases s with
  | nil => exact ⟨rfl, rfl, rfl, rfl, fun _ => rfl, rfl⟩
  | cons e s' =>
      have hcons : (get_summary (e :: s')).2 =
          ⟨sumAmounts (e :: s'), (e :: s').length,
           if (e :: s').length > 0 then
             divF64 (sumAmounts (e :: s')) (natToF64 (e :: s').length)
           else f64Zero,
           categoryTotals (e :: s')⟩ := rfl
      rw [hcons]
      refine ⟨rfl, rfl, ?_, rfl, fun c => categoryTotals_lookup (e :: s') c, rfl⟩
      simp

/-- A record a kept row contributes passed the amount re-check: its amount
does not compare `<= 0` (it is positive, +infinity, or NaN). -/
theorem rowStep_keep_amount {now : String} {row : List (String × Option String)}
    {e : Expense} (h : rowStep now row = RowStep.keep e) :
    leF64 e.amount f64Zero = false := by
  unfold rowStep at h
  cases hc : rowCell row "amount" with
  | none => simp only [hc] at h; exact absurd h (by simp)
  | some amountText =>
      simp only [hc] at h
      cases hp : pyFloat amountText with
      | none => simp only [hp] at h; exact absurd h (by simp)
      | some amount =>
          simp only [hp] at h
          by_cases hle : leF64 amount f64Zero
          · rw [if_pos hle] at h
            exact absurd h (by simp)
          · rw [if_neg hle] at h
            have hle2 : leF64 amount f64Zero = false := by simpa using hle
            cases hcat : rowCell row "category" with
            | none => simp only [hcat] at h; exact absurd h (by simp)
            | some category =>
                cases hdesc : rowCell row "description" with
                | none => simp only [hcat, hdesc] at h; exact absurd h (by simp)
                | some description =>
                    cases hid : rowCell row "id" with
                    | none =>
                        simp only [hcat, hdesc, hid] at h
                        exact absurd h (by simp)
                    | some theId =>
                        cases hdate : rowCell row "date" with
                        | none =>
                            simp only [hcat, hdesc, hid, hdate] at h
                            exact absurd h (by simp)
                        | some theDate =>
                            cases hca : row.lookup "created_at" with
                            | none =>
                                simp only [hcat, hdesc, hid, hdate, hca,
                                  RowStep.keep.injEq] at h
                                rw [← h]
                                exact hle2
                            | some cell =>
                                cases cell with
                                | none =>
                                    simp only [hcat, hdesc, hid, hdate, hca] at h
                                    exact absurd h (by simp)
                                | some ca =>
                                    simp only [hcat, hdesc, hid, hdate, hca,
                                      RowStep.keep.injEq] at h
                                    rw [← h]
                                    exact hle2

/-- A row is skipped exactly when its amount cell holds a string that either
fails to parse or parses to a value comparing `<= 0` — NaN amounts are NOT
skipped. -/
theorem rowStep_skip_iff (now : String) (row : List (String × Option String)) :
    rowStep now row = RowStep.skip ↔
      ∃ t, rowCell row "amount" = some t ∧
        (pyFloat t = none ∨ ∃ a, pyFloat t = some a ∧ leF64 a f64Zero = true) := by
  constructor
  · intro h
    unfold rowStep at h
    cases hc : rowCell row "amount" with
    | none =>
        simp only [hc] at h
        exact absurd h (by simp)
    | some t =>
        simp only [hc] at h
        cases hp : pyFloat t with
        | none => exact ⟨t, rfl, Or.inl hp⟩
        | some a =>
            simp only [hp] at h
            by_cases hle : leF64 a f64Zero
            · exact ⟨t, rfl, Or.inr ⟨a, hp, hle⟩⟩
            · exfalso
              rw [if_neg hle] at h
              cases hcat : rowCell row "category" with
              | none => simp only [hcat] at h; exact absurd h (by simp)
              | some category =>
                  cases hdesc : rowCell row "description" with
                  | none => simp only [hcat, hdesc] at h; exact absurd h (by simp)
                  | some description =>
                      cases hid : rowCell row "id" with
                      | none =>
                          simp only [hcat, hdesc, hid] at h
                          exact absurd h (by simp)
                      | some theId =>
                          cases hdate : rowCell row "date" with
                          | none =>
                              simp only [hcat, hdesc, hid, hdate] at h
                              exact absurd h (by simp)
                          | some theDate =>
                              cases hca : row.lookup "created_at" with
                              | none =>
                                  simp only [hcat, hdesc, hid, hdate, hca] at h
                                  exact absurd h (by simp)
                              | some cell =>
                                  cases cell with
                                  | none =>
                                      simp only [hcat, hdesc, hid, hdate, hca] at h
                                      exact absurd h (by simp)
                                  | some ca =>
                                      simp only [hcat, hdesc, hid, hdate, hca] at h
                                      exact absurd h (by simp)
  · rintro ⟨t, hct, hp | ⟨a, hp, hle⟩⟩
    · unfold rowStep
      simp only [hct, hp]
    · unfold rowStep
      simp only [hct, hp, hle, if_true]

/-- When every complete row is processed (skipped or kept), the loop never
aborts and accumulates exactly the kept records, in order. -/
theorem importLoop_processed (now : String) :
    ∀ rows : List (List (String × Option String)),
    (∀ r ∈ rows, rowComplete r = true) →
    (∀ r ∈ rows, (rowStep now r).isProcessed = true) →
    importLoop now rows =
      LoopResult.done (rows.filterMap (fun r => keptExpense (rowStep now r)))
  | [], _, _ => rfl
  | row :: rest, hc, hp => by
      have hcr := hc row (List.mem_cons_self row rest)
      have hpr := hp row (List.mem_cons_self row rest)
      have ih := importLoop_processed now rest
        (fun r hr => hc r (List.mem_cons_of_mem row hr))
        (fun r hr => hp r (List.mem_cons_of_mem row hr))
      unfold importLoop
      rw [if_pos hcr, List.filterMap_cons]
      cases hs : rowStep now row with
      | crash => rw [hs] at hpr; exact absurd hpr (by simp [RowStep.isProcessed])
      | unmodelled => rw [hs] at hpr; exact absurd hpr (by simp [RowStep.isProcessed])
      | skip =>
          simp only [keptExpense]
          exact ih
      | keep e =>
          simp only [keptExpense, ih]

/-- Every record a completed loop returns passed the amount re-check. -/
theorem importLoop_done_amounts (now : String) :
    ∀ (rows : List (List (String × Option String))) (kept : List Expense),
    importLoop now rows = LoopResult.done kept →
    ∀ e ∈ kept, leF64 e.amount f64Zero = false
  | [], kept, h => by
      intro e he
      rw [← LoopResult.done.inj h] at he
      simp at he
  | row :: rest, kept, h => by
      unfold importLoop at h
      by_cases hc : rowComplete row
      · rw [if_pos hc] at h
        cases hs : rowStep now row with
        | crash => rw [hs] at h; exact absurd h (by simp)
        | unmodelled => rw [hs] at h; exact absurd h (by simp)
        | skip =>
            rw [hs] at h
            exact importLoop_done_amounts now rest kept h
        | keep x =>
            rw [hs] at h
            cases hr : importLoop now rest with
            | formatAbort => rw [hr] at h; exact absurd h (by simp)
            | crashAbort => rw [hr] at h; exact absurd h (by simp)
            | outOfModel => rw [hr] at h; exact absurd h (by simp)
            | done kept' =>
                rw [hr] at h
                intro e he
                rw [← LoopResult.done.inj h] at he
                rcases List.mem_cons.mp he with he2 | he2
                · subst he2
                  exact rowStep_keep_amount hs
                · exact importLoop_done_amounts now rest kept' hr e he2
      · rw [if_neg hc] at h
        exact absurd h (by simp)

/-- A crashing row (a `None` cell reaching `float()` or `.strip()`) aborts
the loop, whatever was skipped or kept before it. -/
theorem importLoop_crash (now : String) :
    ∀ (pre : List (List (String × Option String)))
      (r0 : List (String × Option String))
      (post : List (List (String × Option String))),
    (∀ r ∈ pre, rowComplete r = true) →
    (∀ r ∈ pre, (rowStep now r).isProcessed = true) →
    rowComplete r0 = true → rowStep now r0 = RowStep.crash →
    importLoop now (pre ++ r0 :: post) = LoopResult.crashAbort
  | [], r0, post, _, _, hc0, hs0 => by
      rw [List.nil_append]
      unfold importLoop
      rw [if_pos hc0, hs0]
  | p :: pre, r0, post, hc, hp, hc0, hs0 => by
      have ih := importLoop_crash now pre r0 post
        (fun r hr => hc r (List.mem_cons_of_mem p hr))
        (fun r hr => hp r (List.mem_cons_of_mem p hr)) hc0 hs0
      have hcp := hc p (List.mem_cons_self p pre)
      have hpp := hp p (List.mem_cons_self p pre)
      rw [List.cons_append]
      unfold importLoop
      rw [if_pos hcp]
      cases hs : rowStep now p with
      | crash => rfl
      | unmodelled =>
          rw [hs] at hpp
          simp [RowStep.isProcessed] at hpp
      | skip => exact ih
      | keep e => simp only [ih]

/-- Claim C2, counterexample: a store holding a record with negative amount,
empty category and description and a malformed date is observable — `load`
installs whatever well-formed file content it reads, with no validation. -/
theorem C2_invariant_counterexample :
    Reachable [badExpense] ∧ expenseInv badExpense = false ∧ badExpense ∈ [badExpense] :=
  ⟨Reachable.init (FileState.wellFormed [badExpense]), by decide, by simp⟩

/-- Claim C2 (amended): the invariant is not enforced at every observable
point — records installed by `load` or appended by `add` are not validated —
and what the import re-check guarantees for every record it appends is
exactly the program's gate: the amount does not compare `<= 0` under Python
float comparison, i.e. it is positive, +infinity, or NaN (NaN slips through
because NaN comparisons are all false). -/
theorem C2_import_amount_gate (s : List Expense) (input : CSVInput) (now : String)
    (e : Expense) (h : e ∈ (import_expenses s input now).1) :
    e ∈ s ∨ leF64 e.amount f64Zero = false := by
  unfold import_expenses at h
  cases hl : importLoop now (input.records.map (dictRow input.fieldnames)) with
  | formatAbort => rw [hl] at h; exact Or.inl h
  | crashAbort => rw [hl] at h; exact Or.inl h
  | outOfModel => rw [hl] at h; exact Or.inl h
  | done kept =>
      rw [hl] at h
      cases kept with
      | nil => exact Or.inl h
      | cons x xs =>
          rcases List.mem_append.mp h with h2 | h2
          · exact Or.inl h2
          · exact Or.inr (importLoop_done_amounts now _ _ hl e h2)

/-- Witness for the amended claim C2 at a concrete import. -/
theorem C2_import_amount_gate_witness :
    csvDemoExpense ∈ ([] : List Expense) ∨ leF64 csvDemoExpense.amount f64Zero = false :=
  C2_import_amount_gate [] csvDemo "2024-06-01T12:00:00" csvDemoExpense (by decide)

/-- Claim C8, counterexample: with the `category` column missing from the
header but no data rows, the per-row column check never runs, so the import
reports "no valid expenses" instead of the claimed format error (zero
records are still added). -/
theorem C8_missing_column_counterexample :
    (import_expenses [] c8HeaderOnly "2024-06-01T12:00:00").2 = ImportOutcome.noValid ∧
    (import_expenses [] c8HeaderOnly "2024-06-01T12:00:00").1 = [] ∧
    c8HeaderOnly.fieldnames.contains "category" = false :=
  ⟨rfl, rfl, rfl⟩

/-- Key lookup in a zipped row finds exactly the first list's keys, given at
least as many values as keys. -/
theorem lookup_zip_isSome : ∀ (f : List String) (l : List (Option String)) (k : String),
    f.length ≤ l.length →
    ((((f.zip l).lookup k).isSome = true) ↔ k ∈ f)
  | [], l, k, _ => by simp
  | c :: f, l, k, h => by
      cases l with
      | nil => simp at h
      | cons v l =>
          simp only [List.zip_cons_cons, List.lookup_cons, List.mem_cons]
          by_cases hk : k = c
          · subst hk
            simp
          · have hb : (k == c) = false := beq_eq_false_iff_ne.mpr hk
            simp only [hb]
            rw [lookup_zip_isSome f l k (by simpa using h)]
            simp [hk]

/-- A `DictReader` row has exactly the header's columns as keys, whatever
the physical row's length (missing cells are `None`-padded, extras are
dropped). -/
theorem lookup_dictRow_isSome (f : List String) (r : List String) (k : String) :
    (((dictRow f r).lookup k).isSome = true) ↔ k ∈ f := by
  unfold dictRow
  apply lookup_zip_isSome
  simp only [List.length_append, List.length_map, List.length_replicate]
  omega

/-- The per-row column check on a `DictReader` row succeeds exactly when the
header carries all required columns — it depends only on the header. -/
theorem rowComplete_dictRow (f : List String) (r : List String) :
    rowComplete (dictRow f r) = true ↔ ∀ k ∈ requiredColumns, k ∈ f := by
  unfold rowComplete
  rw [List.all_eq_true]
  constructor
  · intro hall k hk
    exact (lookup_dictRow_isSome f r k).mp (hall k hk)
  · intro hf k hk
    exact (lookup_dictRow_isSome f r k).mpr (hf k hk)

/-- Claim C8 (amended): a header missing a required column makes the import
fail with the format error and add nothing, provided there is at least one
data row (the check is per-row, so a header-only file reports "no valid
expenses" instead); when all required columns are present and every row is
handled inside the loop, the import never reports a format error or an
abort, and appends exactly the kept rows — a row being skipped exactly when
its amount cell holds a string that fails to parse or parses to a value
comparing `<= 0` (NaN rows are kept, not skipped); and a row whose `None`
cell reaches `float()` or `.strip()` (a physical row shorter than the
header) aborts the whole import through the generic handler with zero
records added. -/
theorem C8_import_amended (s : List Expense) (input : CSVInput) (now : String) :
    ((∃ k ∈ requiredColumns, k ∉ input.fieldnames) → input.records ≠ [] →
        import_expenses s input now = (s, ImportOutcome.formatError)) ∧
    ((∀ k ∈ requiredColumns, k ∈ input.fieldnames) →
      (∀ r ∈ input.records, (rowStep now (dictRow input.fieldnames r)).isProcessed = true) →
        (import_expenses s input now).1 =
          s ++ (input.records.map (dictRow input.fieldnames)).filterMap
            (fun row => keptExpense (rowStep now row)) ∧
        (import_expenses s input now).2 ≠ ImportOutcome.formatError ∧
        (import_expenses s input now).2 ≠ ImportOutcome.crashed) ∧
    (∀ row : List (String × Option String),
      (rowStep now row = RowStep.skip ↔
        ∃ t, rowCell row "amount" = some t ∧
          (pyFloat t = none ∨ ∃ a, pyFloat t = some a ∧ leF64 a f64Zero = true))) ∧
    (∀ (pre : List (List String)) (r0 : List String) (post : List (List String)),
      input.records = pre ++ r0 :: post →
      (∀ k ∈ requiredColumns, k ∈ input.fieldnames) →
      (∀ r ∈ pre, (rowStep now (dictRow input.fieldnames r)).isProcessed = true) →
      rowStep now (dictRow input.fieldnames r0) = RowStep.crash →
      import_expenses s input now = (s, ImportOutcome.crashed)) := by
  refine ⟨?_, ?_, fun row => rowStep_skip_iff now row, ?_⟩
  · rintro ⟨k, hk, hknot⟩ hne
    cases hrec : input.records with
    | nil => exact absurd hrec hne
    | cons r0 rest =>
        have hcomp : ¬ rowComplete (dictRow input.fieldnames r0) = true := by
          intro hb
          exact hknot ((rowComplete_dictRow input.fieldnames r0).mp hb k hk)
        have hl : importLoop now (input.records.map (dictRow input.fieldnames)) =
            LoopResult.formatAbort := by
          rw [hrec, List.map_cons]
          unfold importLoop
          rw [if_neg hcomp]
        unfold import_expenses
        rw [hl]
  · intro hall hproc
    have hcompall : ∀ row ∈ input.records.map (dictRow input.fieldnames),
        rowComplete row = true := by
      intro row hrow
      rcases List.mem_map.mp hrow with ⟨r, hr, hre⟩
      subst hre
      exact (rowComplete_dictRow input.fieldnames r).mpr hall
    have hprocall : ∀ row ∈ input.records.map (dictRow input.fieldnames),
        (rowStep now row).isProcessed = true := by
      intro row hrow
      rcases List.mem_map.mp hrow with ⟨r, hr, hre⟩
      subst hre
      exact hproc r hr
    have hl := importLoop_processed now _ hcompall hprocall
    unfold import_expenses
    rw [hl]
    cases hfm : (input.records.map (dictRow input.fieldnames)).filterMap
        (fun row => keptExpense (rowStep now row)) with
    | nil =>
        refine ⟨by simp, ?_, ?_⟩ <;> intro hcon <;> exact ImportOutcome.noConfusion hcon
    | cons x xs =>
        refine ⟨rfl, ?_, ?_⟩ <;> intro hcon <;> exact ImportOutcome.noConfusion hcon
  · intro pre r0 post hrec hall hproc hcrash
    have hl : importLoop now (input.records.map (dictRow input.fieldnames)) =
        LoopResult.crashAbort := by
      rw [hrec, List.map_append, List.map_cons]
      exact importLoop_crash now (pre.map (dictRow input.fieldnames))
        (dictRow input.fieldnames r0) (post.map (dictRow input.fieldnames))
        (by
          intro r hr
          rcases List.mem_map.mp hr with ⟨r', hr', hre⟩
          subst hre
          exact (rowComplete_dictRow input.fieldnames r').mpr hall)
        (by
          intro r hr
          rcases List.mem_map.mp hr with ⟨r', hr', hre⟩
          subst hre
          exact hproc r' hr')
        ((rowComplete_dictRow input.fieldnames r0).mpr hall) hcrash
    unfold import_expenses
    rw [hl]

/-- Witness for the amended claim C8 at a concrete import with all columns
present and one kept row. -/
theorem C8_import_amended_witness :
    (import_expenses [] csvDemo "2024-06-01T12:00:00").1 =
      [] ++ (csvDemo.records.map (dictRow csvDemo.fieldnames)).filterMap
        (fun row => keptExpense (rowStep "2024-06-01T12:00:00" row)) :=
  ((C8_import_amended [] csvDemo "2024-06-01T12:00:00").2.1
    (by decide) (by decide)).1

end ExpenseTracker
